import Mathlib

/-!
Verification of the software rasterization core of a CSG viewer
(`src/main.rs`): camera transform construction (`build_camera`),
vertex transformation (`transform`), perspective projection with
near-plane culling (`project`), per-triangle render-record
construction, depth sorting and canvas drawing (`MyApp::update`).

Modelling conventions:
* `f32` values are modelled as exact rationals (`ℚ`); floating point
  rounding is irrelevant to the claims checked here.  Where IEEE
  special values (NaN, ±∞) are the substance of a claim, a dedicated
  type `FVal` models a float as a rational or a special value, with
  the IEEE propagation rules for the operations the code performs.
* `nalgebra::Matrix4` is `Matrix (Fin 4) (Fin 4) ℚ`.
  `Matrix4::new_rotation(Vector3::y() * yaw)` is an axis–angle
  (Rodrigues) rotation about the y axis by `yaw`; for an axis-aligned
  axis this is the standard rotation matrix with entries
  `cos yaw`/`sin yaw`.  Since `cos`/`sin` are transcendental, the
  rotation matrices are parametrised by the cosine/sine pair
  `(c, s)` of the angle; no identity `c^2 + s^2 = 1` is needed for
  any claim below, so the parametrisation loses nothing.
* Rust's `Option::unwrap` panics on `None`; a frame that panics
  produces no output, which is modelled by the frame-level renderer
  returning `none` (via `List.mapM`).
-/

namespace CsgView

/-- A 3D point (`[f32; 3]` / `nalgebra::Vector3<f32>`), coordinates as exact rationals. -/
structure V3 where
  x : ℚ
  y : ℚ
  z : ℚ
deriving DecidableEq, Repr

/-- The 4x4 matrix type (`nalgebra::Matrix4<f32>`). -/
abbrev Mat4 : Type := Matrix (Fin 4) (Fin 4) ℚ

/-- Rotation about the y axis, parametrised by the cosine `c` and sine `s` of the
angle: models `Matrix4::new_rotation(Vector3::y() * yaw)` with `c = cos yaw`,
`s = sin yaw` (for an axis-aligned axis the Rodrigues formula reduces to the
standard rotation matrix, also for negative angles). -/
def rotY (c s : ℚ) : Mat4 :=
  !![c, 0, s, 0;
     0, 1, 0, 0;
     -s, 0, c, 0;
     0, 0, 0, 1]

/-- Rotation about the x axis, parametrised by the cosine `c` and sine `s` of the
angle: models `Matrix4::new_rotation(Vector3::x() * pitch)`. -/
def rotX (c s : ℚ) : Mat4 :=
  !![1, 0, 0, 0;
     0, c, -s, 0;
     0, s, c, 0;
     0, 0, 0, 1]

/-- Translation by `(0, 0, d)`: models
`Matrix4::new_translation(&Vector3::new(0.0, 0.0, dist))`. -/
def translateZ (d : ℚ) : Mat4 :=
  !![1, 0, 0, 0;
     0, 1, 0, 0;
     0, 0, 1, d;
     0, 0, 0, 1]

/-- Source `build_camera` (main.rs:181-187): `translate * rot_x * rot_y`, with the
two rotations parametrised by their cosine/sine pairs (`cy, sy` for yaw,
`cp, sp` for pitch). -/
def build_camera (cy sy cp sp dist : ℚ) : Mat4 :=
  translateZ dist * rotX cp sp * rotY cy sy

/-- Source `transform` (main.rs:190-193): multiply the homogeneous extension
`(x, y, z, 1)` by the matrix and keep the first three components. -/
def transform (m : Mat4) (p : V3) : V3 :=
  let v := Matrix.mulVec m ![p.x, p.y, p.z, 1]
  ⟨v 0, v 1, v 2⟩

/-- Source `project` (main.rs:118-131): cull when `pos.z < near_z` (`near_z = 0.1`),
otherwise scale by `focal_length / pos.z` (`focal_length = 2.0`) and flip y. -/
def project (pos : V3) : Option (ℚ × ℚ) :=
  let near_z : ℚ := 1/10
  let focal_length : ℚ := 2
  if pos.z < near_z then
    none
  else
    let scale := focal_length / pos.z
    some (pos.x * scale, -pos.y * scale)

/-- Rust `f32::clamp` branch structure on finite values:
`if self < min { min } else if self > max { max } else { self }`. -/
def clampQ (x lo hi : ℚ) : ℚ :=
  if x < lo then lo else if hi < x then hi else x

/-- A render record (main.rs:136): `(avg_z, shade, p0_2d, p1_2d, p2_2d)`. -/
structure RRec where
  avg_z : ℚ
  shade : ℚ
  p0 : ℚ × ℚ
  p1 : ℚ × ℚ
  p2 : ℚ × ℚ
deriving DecidableEq, Repr

/-- Per-triangle body of the render loop (main.rs:105-136): transform the three
vertices, compute the average depth and the shade, project the three vertices.
The source calls `.unwrap()` on each projection; `none` here models the panic
of an unwrap on a culled vertex. -/
def renderTri (cam : Mat4) (t : V3 × V3 × V3) : Option RRec :=
  let v0 := transform cam t.1
  let v1 := transform cam t.2.1
  let v2 := transform cam t.2.2
  let avg_z := (v0.z + v1.z + v2.z) / 3
  let shade := clampQ (1 - avg_z / 10) 0 1
  match project v0, project v1, project v2 with
  | some a, some b, some c => some ⟨avg_z, shade, a, b, c⟩
  | _, _, _ => none

/-- The whole per-frame record-building loop (main.rs:104-137).  In the source a
culled vertex makes `.unwrap()` panic, aborting the frame with no output: the
frame yields `some records` only when every triangle has all three vertices
visible, and `none` (the panic) as soon as any triangle has a culled vertex. -/
def renderFrame (cam : Mat4) (tris : List (V3 × V3 × V3)) : Option (List RRec) :=
  tris.mapM (renderTri cam)

/-- Modelled from the spec: the Triangle Renderer policy of section 4.4, absent
from the code (which unwraps instead): a triangle any of whose projections is
absent is dropped from the frame, and the remaining triangles are rendered. -/
def specRenderFrame (cam : Mat4) (tris : List (V3 × V3 × V3)) : List RRec :=
  tris.filterMap (renderTri cam)

/-! ### IEEE special values

For the claims whose substance is NaN/∞ behaviour (the shade clamp and the
depth sort comparator), an `f32` is modelled as a rational or a special
value, with the IEEE propagation rules of the operations the code performs. -/

/-- An `f32` depth value: finite (exact rational), `+∞`, `-∞`, or NaN. -/
inductive FVal where
  | fin : ℚ → FVal
  | posInf : FVal
  | negInf : FVal
  | nan : FVal
deriving DecidableEq, Repr

/-- IEEE addition on `FVal` (only the cases `f32::add` distinguishes). -/
def fadd : FVal → FVal → FVal
  | .nan, _ => .nan
  | _, .nan => .nan
  | .fin a, .fin b => .fin (a + b)
  | .fin _, .posInf => .posInf
  | .fin _, .negInf => .negInf
  | .posInf, .fin _ => .posInf
  | .negInf, .fin _ => .negInf
  | .posInf, .posInf => .posInf
  | .negInf, .negInf => .negInf
  | .posInf, .negInf => .nan
  | .negInf, .posInf => .nan

/-- IEEE subtraction on `FVal`. -/
def fsub : FVal → FVal → FVal
  | .nan, _ => .nan
  | _, .nan => .nan
  | .fin a, .fin b => .fin (a - b)
  | .fin _, .posInf => .negInf
  | .fin _, .negInf => .posInf
  | .posInf, .fin _ => .posInf
  | .negInf, .fin _ => .negInf
  | .posInf, .posInf => .nan
  | .negInf, .negInf => .nan
  | .posInf, .negInf => .posInf
  | .negInf, .posInf => .negInf

/-- IEEE division of an `FVal` by a strictly positive finite constant (the code
only divides by the literals `3.0` and `10.0`). -/
def fdivC (x : FVal) (c : ℚ) : FVal :=
  match x with
  | .nan => .nan
  | .posInf => .posInf
  | .negInf => .negInf
  | .fin a => .fin (a / c)

/-- IEEE strict less-than on `FVal`: any comparison with NaN is false. -/
def flt : FVal → FVal → Bool
  | .nan, _ => false
  | _, .nan => false
  | .fin a, .fin b => decide (a < b)
  | .fin _, .posInf => true
  | .fin _, .negInf => false
  | .posInf, .fin _ => false
  | .negInf, .fin _ => true
  | .posInf, .posInf => false
  | .negInf, .negInf => false
  | .posInf, .negInf => false
  | .negInf, .posInf => true

/-- Rust `f32::clamp`: `if self < min { min } else if self > max { max } else
{ self }`; a NaN input falls through both tests and is returned unchanged. -/
def fclamp (x lo hi : FVal) : FVal :=
  if flt x lo then lo else if flt hi x then hi else x

/-- Average depth `(z0 + z1 + z2) / 3.0` (main.rs:112) over `FVal`. -/
def favg (z0 z1 z2 : FVal) : FVal :=
  fdivC (fadd (fadd z0 z1) z2) 3

/-- Shade `(1.0 - (avg_z / 10.0)).clamp(0.0, 1.0)` (main.rs:115) over `FVal`. -/
def fshade (avg_z : FVal) : FVal :=
  fclamp (fsub (.fin 1) (fdivC avg_z 10)) (.fin 0) (.fin 1)

/-- Rust `f32::partial_cmp`: `none` exactly when either side is NaN. -/
def fpcmp : FVal → FVal → Option Ordering
  | .nan, _ => none
  | _, .nan => none
  | .fin a, .fin b => some (if a < b then .lt else if b < a then .gt else .eq)
  | .fin _, .posInf => some .lt
  | .fin _, .negInf => some .gt
  | .posInf, .fin _ => some .gt
  | .negInf, .fin _ => some .lt
  | .posInf, .posInf => some .eq
  | .negInf, .negInf => some .eq
  | .posInf, .negInf => some .gt
  | .negInf, .posInf => some .lt

/-- A render record with an `FVal` depth, for the claims about NaN depths. -/
structure RRecF where
  avg_z : FVal
  shade : FVal
  p0 : ℚ × ℚ
  p1 : ℚ × ℚ
  p2 : ℚ × ℚ
deriving DecidableEq, Repr

/-- The sort comparator (main.rs:140):
`|a, b| b.0.partial_cmp(&a.0).unwrap_or(Ordering::Equal)`. -/
def depthCmp (a b : RRecF) : Ordering :=
  (fpcmp b.avg_z a.avg_z).getD .eq

/-- An element `a` may precede `b` when the comparator does not order `a`
strictly after `b`. -/
def depthLe (a b : RRecF) : Bool :=
  depthCmp a b ≠ .gt

/-- The depth sort (main.rs:139-140).  `Vec::sort_by` is a total (never
panicking) comparison sort; it is modelled as an insertion sort with the same
comparator — the claims checked below do not depend on the tie order, which
Rust leaves to the algorithm. -/
def sortRenderTris (l : List RRecF) : List RRecF :=
  List.insertionSort (fun a b => depthLe a b) l

/-! ### Camera state, input handling and drawing -/

/-- The camera fields of `MyApp` (main.rs:17-25). -/
structure CameraState where
  yaw : ℚ
  pitch : ℚ
  dist : ℚ
  pan_x : ℚ
  pan_y : ℚ
deriving DecidableEq, Repr

/-- The per-frame pointer/scroll sample (main.rs:68-84): whether a drag is
decided, which buttons are down, the drag delta and the raw scroll delta. -/
structure InputState where
  dragging : Bool
  primary : Bool
  secondary : Bool
  dx : ℚ
  dy : ℚ
  scroll : ℚ
deriving DecidableEq, Repr

/-- The drag branch of `MyApp::update` (main.rs:70-82): a decided drag with the
primary button down rotates (`yaw -= dx*0.01`, `pitch += dy*0.01`); otherwise
with the secondary button down it pans (`pan_x += dx*0.5`, `pan_y += dy*0.5`). -/
def updateDrag (s : CameraState) (i : InputState) : CameraState :=
  if i.dragging then
    if i.primary then
      { s with yaw := s.yaw - i.dx * (1/100), pitch := s.pitch + i.dy * (1/100) }
    else if i.secondary then
      { s with pan_x := s.pan_x + i.dx * (1/2), pan_y := s.pan_y + i.dy * (1/2) }
    else s
  else s

/-- Machine epsilon of `f32` (`f32::EPSILON = 2^-23`). -/
def f32EPSILON : ℚ := 1 / 2 ^ 23

/-- The scroll branch of `MyApp::update` (main.rs:84-87): when `|scroll|`
exceeds `f32::EPSILON`, `dist *= (1.0 - scroll * 0.001).max(0.05)`. -/
def scrollStep (d scroll : ℚ) : ℚ :=
  if f32EPSILON < |scroll| then d * max (1 - scroll * (1/1000)) (1/20) else d

/-- Distance reached from `d` after a sequence of scroll inputs. -/
def applyScrolls (d : ℚ) (l : List ℚ) : ℚ :=
  l.foldl scrollStep d

/-- A draw call issued to the egui painter: three screen positions, a fill
colour, a stroke colour and a stroke width. -/
structure DrawCmd where
  c0 : ℚ × ℚ
  c1 : ℚ × ℚ
  c2 : ℚ × ℚ
  fill : ℕ × ℕ × ℕ
  strokeColor : ℕ × ℕ × ℕ
  strokeWidth : ℚ
deriving DecidableEq, Repr

/-- Written from the spec's words for the refinement claim about `build_camera`:
rotation of a point about the vertical (y) axis, with `c`/`s` the cosine/sine
of the angle. -/
def rotYpt (c s : ℚ) (p : V3) : V3 :=
  ⟨c * p.x + s * p.z, p.y, -s * p.x + c * p.z⟩

/-- Written from the spec's words: rotation of a point about the horizontal (x)
axis, with `c`/`s` the cosine/sine of the angle. -/
def rotXpt (c s : ℚ) (p : V3) : V3 :=
  ⟨p.x, c * p.y - s * p.z, s * p.y + c * p.z⟩

/-- Written from the spec's words: translation of a point along `+Z` by `d`. -/
def translateZpt (d : ℚ) (p : V3) : V3 :=
  ⟨p.x, p.y, p.z + d⟩

/-- The perspective scale `focal_length / pos.z` of main.rs:129. -/
def projScale (pos : V3) : ℚ :=
  2 / pos.z

/-- Test record with a NaN depth (payload fields zero). -/
def rnan : RRecF :=
  ⟨.nan, .fin 0, (0, 0), (0, 0), (0, 0)⟩

/-- Test record with a finite depth `q` (payload fields zero). -/
def rfin (q : ℚ) : RRecF :=
  ⟨.fin q, .fin 0, (0, 0), (0, 0), (0, 0)⟩

/-- The dead shade-to-grey conversion (main.rs:144): `(shade * 200.0) as u8` —
computed but not used by the emitted shape.  The `as u8` cast truncates toward
zero and saturates into `[0, 255]`. -/
def colorVal (shade : ℚ) : ℕ :=
  (min 255 (max 0 ⌊shade * 200⌋)).toNat

/-- The draw loop body (main.rs:143-174): screen position
`center + p * 100.0 + pan`, fill colour `Color32::from_rgb(50, 100, 255)`
(fixed — the shade-based `col` is computed but unused), white stroke of
width 1. -/
def drawRecord (cx cy panx pany : ℚ) (r : RRec) : DrawCmd :=
  { c0 := (cx + r.p0.1 * 100 + panx, cy + r.p0.2 * 100 + pany)
    c1 := (cx + r.p1.1 * 100 + panx, cy + r.p1.2 * 100 + pany)
    c2 := (cx + r.p2.1 * 100 + panx, cy + r.p2.2 * 100 + pany)
    fill := (50, 100, 255)
    strokeColor := (255, 255, 255)
    strokeWidth := 1 }

/-! ### Helper lemmas -/

/-- The camera matrix acts on a point as: yaw rotation, then pitch rotation,
then translation along `+Z`. -/
lemma transform_build_camera (cy sy cp sp d : ℚ) (p : V3) :
    transform (build_camera cy sy cp sp d) p =
      translateZpt d (rotXpt cp sp (rotYpt cy sy p)) := by
  simp only [transform, build_camera, rotY, rotX, translateZ, translateZpt, rotXpt, rotYpt,
    ← Matrix.mulVec_mulVec]
  simp [V3.mk.injEq, Matrix.vecHead, Matrix.vecTail, Function.comp]
  refine ⟨by ring, by ring, by ring⟩

/-- The clamp into `[0, 1]` really lands in `[0, 1]`. -/
lemma clampQ_range (x : ℚ) : 0 ≤ clampQ x 0 1 ∧ clampQ x 0 1 ≤ 1 := by
  unfold clampQ
  split_ifs <;> constructor <;> linarith

/-- On a finite value the `FVal` shade agrees with the rational clamp. -/
lemma fshade_fin (q : ℚ) : fshade (.fin q) = .fin (clampQ (1 - q/10) 0 1) := by
  simp only [fshade, fdivC, fsub, fclamp, flt, clampQ, decide_eq_true_eq]
  split_ifs <;> rfl

/-- Comparison with a NaN on the right is undefined. -/
lemma fpcmp_nan_right (x : FVal) : fpcmp x .nan = none := by
  cases x <;> rfl

/-- Comparison with a NaN on the left is undefined. -/
lemma fpcmp_nan_left (x : FVal) : fpcmp .nan x = none := by
  cases x <;> rfl

/-- The comparator relation is total: two records always compare `≼` in at
least one direction (NaN depths compare "equal" to everything). -/
lemma depthLe_total (a b : RRecF) : depthLe a b = true ∨ depthLe b a = true := by
  unfold depthLe depthCmp
  rcases a.avg_z with q | _ | _ | _ <;> rcases b.avg_z with r | _ | _ | _ <;>
    simp [fpcmp]
  rcases lt_trichotomy r q with h | h | h
  · left
    simp [h, asymm h]
  · simp [h, lt_irrefl]
  · right
    simp [h, asymm h]

/-- Away from NaN, `fpcmp … ≠ gt` (an IEEE `≤`) is transitive. -/
lemma fpcmp_ne_gt_trans {x y z : FVal} (hx : x ≠ .nan) (hy : y ≠ .nan) (hz : z ≠ .nan)
    (h1 : fpcmp x y ≠ some .gt) (h2 : fpcmp y z ≠ some .gt) : fpcmp x z ≠ some .gt := by
  rcases x with a | _ | _ | _ <;> rcases y with b | _ | _ | _ <;> rcases z with c | _ | _ | _ <;>
    simp_all [fpcmp]
  intro hca
  have hab : a ≤ b := by
    rcases le_total b a with h | h
    · exact h1 h
    · exact h
  have hbc : b ≤ c := by
    rcases le_total c b with h | h
    · exact h2 h
    · exact h
  exact le_trans hab hbc

/-- Inserting into a list whose adjacent pairs satisfy a total relation
preserves that property — totality suffices, no transitivity is needed. -/
lemma chain'_orderedInsert {α : Type} (r : α → α → Prop) [DecidableRel r]
    (total : ∀ a b, r a b ∨ r b a) (a : α) :
    ∀ l : List α, List.Chain' r l → List.Chain' r (List.orderedInsert r a l)
  | [], _ => List.chain'_singleton a
  | b :: l, hc => by
    by_cases hab : r a b
    · rw [List.orderedInsert_of_le _ l hab]
      exact hc.cons hab
    · have hba : r b a := (total a b).resolve_left hab
      have ih := chain'_orderedInsert r total a l hc.tail
      simp only [List.orderedInsert]
      rw [if_neg hab]
      refine List.chain'_cons'.mpr ⟨?_, ih⟩
      intro x hx
      rcases l with _ | ⟨c, l'⟩
      · simp at hx
        subst hx
        exact hba
      · have hbc : r b c := (List.chain'_cons.mp hc).1
        simp only [List.orderedInsert] at hx
        by_cases hac : r a c
        · rw [if_pos hac] at hx
          simp at hx
          subst hx
          exact hba
        · rw [if_neg hac] at hx
          simp at hx
          subst hx
          exact hbc

/-- Insertion sort with a total relation yields adjacent-pairwise order. -/
lemma chain'_insertionSort {α : Type} (r : α → α → Prop) [DecidableRel r]
    (total : ∀ a b, r a b ∨ r b a) :
    ∀ l : List α, List.Chain' r (List.insertionSort r l)
  | [] => List.chain'_nil
  | b :: l => chain'_orderedInsert r total b _ (chain'_insertionSort r total l)

/-- An adjacent-pairwise ordered list is globally pairwise ordered when the
relation is transitive on the elements present. -/
lemma pairwise_of_chain' {α : Type} {r : α → α → Prop} {P : α → Prop}
    (htrans : ∀ a b c, P a → P b → P c → r a b → r b c → r a c) :
    ∀ l : List α, (∀ x ∈ l, P x) → List.Chain' r l → List.Pairwise r l
  | [], _, _ => .nil
  | a :: l, hP, hc => by
    have ht := pairwise_of_chain' htrans l (fun x hx => hP x (List.mem_cons_of_mem _ hx)) hc.tail
    refine List.pairwise_cons.mpr ⟨?_, ht⟩
    intro x hx
    rcases l with _ | ⟨b, l'⟩
    · cases hx
    · have hab : r a b := (List.chain'_cons.mp hc).1
      rcases List.mem_cons.mp hx with rfl | hx'
      · exact hab
      · have hbx : r b x := (List.pairwise_cons.mp ht).1 x hx'
        exact htrans a b x (hP a (List.mem_cons_self a _))
          (hP b (List.mem_cons_of_mem _ (List.mem_cons_self b _)))
          (hP x (List.mem_cons_of_mem _ hx)) hab hbx

/-- The comparator order on records with non-NaN depths is transitive. -/
lemma depthLe_trans {a b c : RRecF} (ha : a.avg_z ≠ .nan) (hb : b.avg_z ≠ .nan)
    (hc : c.avg_z ≠ .nan) (h1 : depthLe a b = true) (h2 : depthLe b c = true) :
    depthLe a c = true := by
  unfold depthLe depthCmp at *
  have h1' : fpcmp b.avg_z a.avg_z ≠ some .gt := by
    intro h
    rw [h] at h1
    simp at h1
  have h2' : fpcmp c.avg_z b.avg_z ≠ some .gt := by
    intro h
    rw [h] at h2
    simp at h2
  have h3 := fpcmp_ne_gt_trans hc hb ha h2' h1'
  rcases hv : fpcmp c.avg_z a.avg_z with _ | o
  · simp
  · rw [hv] at h3
    simp only [Option.getD_some]
    simp
    intro heq
    exact h3 (by rw [heq])

/-! ### Claims -/

/-- C2: for every yaw/pitch (given by their cosine-sine pairs) and distance,
`build_camera` returns exactly `Translate(0,0,dist) * RotateX(pitch) *
RotateY(yaw)`, and accordingly acts on any point by applying the yaw rotation
first, then the pitch rotation, then the translation along `+Z`. -/
theorem C2_build_camera_order (cy sy cp sp d : ℚ) :
    build_camera cy sy cp sp d = translateZ d * rotX cp sp * rotY cy sy ∧
    ∀ p : V3, transform (build_camera cy sy cp sp d) p =
      translateZpt d (rotXpt cp sp (rotYpt cy sy p)) :=
  ⟨rfl, transform_build_camera cy sy cp sp d⟩

/-- C8: with yaw = 0, pitch = 0 (cosine 1, sine 0) and distance 0,
`build_camera` returns the identity matrix, and transforming any point by it
returns the point unchanged. -/
theorem C8_identity_roundtrip :
    build_camera 1 0 1 0 0 = (1 : Mat4) ∧
    ∀ p : V3, transform (build_camera 1 0 1 0 0) p = p := by
  constructor
  · ext i j
    fin_cases i <;> fin_cases j <;>
      simp [build_camera, translateZ, rotX, rotY, Matrix.mul_apply, Fin.sum_univ_four,
        Matrix.one_apply, Matrix.vecHead, Matrix.vecTail]
  · intro p
    rw [transform_build_camera]
    cases p
    simp [rotYpt, rotXpt, translateZpt]

/-- C3: `project` returns `none` exactly when the camera-space `z` is strictly
below the near plane `0.1` (so a point with `z = 0.1` exactly is visible), and
otherwise returns `(x * (2 / z), -y * (2 / z))`. -/
theorem C3_project_characterisation (p : V3) :
    (project p = none ↔ p.z < 1/10) ∧
    (1/10 ≤ p.z → project p = some (p.x * (2 / p.z), -p.y * (2 / p.z))) := by
  constructor
  · by_cases h : p.z < 1/10 <;> simp only [project] <;> simp [h]
  · intro h
    simp only [project]
    rw [if_neg (not_lt.mpr h)]

/-- Witness for C3 at the concrete points `(3, 4, 2)` (visible, `z = 2`) and
`(0, 0, 0)` (culled, `z < 0.1`). -/
theorem C3_project_characterisation_witness :
    ((1 : ℚ)/10 ≤ 2 ∧ project ⟨3, 4, 2⟩ = some (3, -4)) ∧
    ((0 : ℚ) < 1/10 ∧ project ⟨0, 0, 0⟩ = none) := by
  constructor
  · refine ⟨by norm_num, ?_⟩
    have h := (C3_project_characterisation ⟨3, 4, 2⟩).2 (by norm_num)
    norm_num at h
    exact h
  · exact ⟨by norm_num, (C3_project_characterisation ⟨0, 0, 0⟩).1.mpr (by norm_num)⟩

/-- C1 (evaluation at the failing input): contrary to the claimed
drop-the-triangle policy, the update loop calls `.unwrap()` on each
projection (main.rs:132-134), so a frame containing one triangle with a
culled vertex (all three vertices at camera-space `z = 0.05 < 0.1`) panics
and produces no output at all (`renderFrame … = none`), even though a second,
fully visible triangle is present; the spec-modelled drop policy would
instead render exactly that second triangle. -/
theorem C1_unwrap_aborts_frame :
    renderFrame (build_camera 1 0 1 0 0)
      [(⟨0, 0, 1/20⟩, ⟨1/10, 0, 1/20⟩, ⟨0, 1/10, 1/20⟩),
       (⟨0, 0, 2⟩, ⟨1, 0, 2⟩, ⟨0, 1, 2⟩)] = none ∧
    specRenderFrame (build_camera 1 0 1 0 0)
      [(⟨0, 0, 1/20⟩, ⟨1/10, 0, 1/20⟩, ⟨0, 1/10, 1/20⟩),
       (⟨0, 0, 2⟩, ⟨1, 0, 2⟩, ⟨0, 1, 2⟩)] =
      [⟨2, 4/5, (0, 0), (1, 0), (0, -1)⟩] := by
  constructor
  · norm_num [renderFrame, renderTri, transform_build_camera, rotYpt, rotXpt, translateZpt,
      project, clampQ, List.mapM, List.mapM.loop]
  · norm_num [specRenderFrame, renderTri, transform_build_camera, rotYpt, rotXpt, translateZpt,
      project, clampQ, List.filterMap_cons]

/-- C9: holding yaw, pitch (cosine-sine pairs) and the world point fixed,
if the point is visible at distance `d1` (camera-space `z ≥ 0.1`) and the
distance increases to `d2 > d1`, the point is still visible and its
perspective scale `focal_length / z` strictly decreases. -/
theorem C9_scale_strictly_decreases (cy sy cp sp d1 d2 : ℚ) (p : V3)
    (hvis : 1/10 ≤ (transform (build_camera cy sy cp sp d1) p).z)
    (hd : d1 < d2) :
    1/10 ≤ (transform (build_camera cy sy cp sp d2) p).z ∧
    projScale (transform (build_camera cy sy cp sp d2) p) <
      projScale (transform (build_camera cy sy cp sp d1) p) := by
  have h1 : (transform (build_camera cy sy cp sp d1) p).z
      = (rotXpt cp sp (rotYpt cy sy p)).z + d1 := by
    rw [transform_build_camera]; rfl
  have h2 : (transform (build_camera cy sy cp sp d2) p).z
      = (rotXpt cp sp (rotYpt cy sy p)).z + d2 := by
    rw [transform_build_camera]; rfl
  rw [h1] at hvis
  have hz1 : (0:ℚ) < (rotXpt cp sp (rotYpt cy sy p)).z + d1 := by linarith
  have hz2 : (rotXpt cp sp (rotYpt cy sy p)).z + d1
      < (rotXpt cp sp (rotYpt cy sy p)).z + d2 := by linarith
  refine ⟨by rw [h2]; linarith, ?_⟩
  simp only [projScale, h1, h2]
  exact div_lt_div_of_pos_left (by norm_num) hz1 hz2

/-- Witness for C9: the point `(0, 0, 1)` under the identity rotation is at
`z = 2` for distance 1 and at `z = 3` for distance 2, and the scale drops
from `1` to `2/3`. -/
theorem C9_scale_strictly_decreases_witness :
    ((1:ℚ)/10 ≤ (transform (build_camera 1 0 1 0 1) ⟨0, 0, 1⟩).z) ∧
    (1/10 ≤ (transform (build_camera 1 0 1 0 2) ⟨0, 0, 1⟩).z ∧
      projScale (transform (build_camera 1 0 1 0 2) ⟨0, 0, 1⟩) <
        projScale (transform (build_camera 1 0 1 0 1) ⟨0, 0, 1⟩)) := by
  have hvis : (1:ℚ)/10 ≤ (transform (build_camera 1 0 1 0 1) ⟨0, 0, 1⟩).z := by
    norm_num [transform_build_camera, rotYpt, rotXpt, translateZpt]
  exact ⟨hvis, C9_scale_strictly_decreases 1 0 1 0 1 2 ⟨0, 0, 1⟩ hvis (by norm_num)⟩

/-- C10: while a decided drag has both the primary and the secondary button
down, the primary (rotation) branch wins: yaw and pitch are updated from the
drag delta, the pan offset is unchanged — and a drag never changes the
distance. -/
theorem C10_primary_drag_precedence (s : CameraState) (i : InputState) :
    (updateDrag s i).dist = s.dist ∧
    (i.dragging = true → i.primary = true → i.secondary = true →
      (updateDrag s i).yaw = s.yaw - i.dx * (1/100) ∧
      (updateDrag s i).pitch = s.pitch + i.dy * (1/100) ∧
      (updateDrag s i).pan_x = s.pan_x ∧
      (updateDrag s i).pan_y = s.pan_y) := by
  constructor
  · unfold updateDrag
    split_ifs <;> rfl
  · intro hd hp _
    simp [updateDrag, hd, hp]

/-- Witness for C10 at a concrete drag with both buttons down. -/
theorem C10_primary_drag_precedence_witness :
    (updateDrag ⟨0, 0, 3, 0, 0⟩ ⟨true, true, true, 10, 20, 0⟩).yaw
        = (CameraState.mk 0 0 3 0 0).yaw - 10 * (1/100) ∧
      (updateDrag ⟨0, 0, 3, 0, 0⟩ ⟨true, true, true, 10, 20, 0⟩).pitch
        = (CameraState.mk 0 0 3 0 0).pitch + 20 * (1/100) ∧
      (updateDrag ⟨0, 0, 3, 0, 0⟩ ⟨true, true, true, 10, 20, 0⟩).pan_x
        = (CameraState.mk 0 0 3 0 0).pan_x ∧
      (updateDrag ⟨0, 0, 3, 0, 0⟩ ⟨true, true, true, 10, 20, 0⟩).pan_y
        = (CameraState.mk 0 0 3 0 0).pan_y :=
  (C10_primary_drag_precedence ⟨0, 0, 3, 0, 0⟩ ⟨true, true, true, 10, 20, 0⟩).2 rfl rfl rfl

/-- C6 (counterexample): two records whose shades differ (0 and 1) are drawn
with the same fill colour, so the fill colour is not derived from the shade. -/
theorem C6_fill_ignores_shade_counterexample :
    (drawRecord 0 0 0 0 ⟨0, 0, (0, 0), (0, 0), (0, 0)⟩).fill
        = (drawRecord 0 0 0 0 ⟨0, 1, (0, 0), (0, 0), (0, 0)⟩).fill ∧
    (RRec.shade ⟨0, 0, (0, 0), (0, 0), (0, 0)⟩)
        ≠ (RRec.shade ⟨0, 1, (0, 0), (0, 0), (0, 0)⟩) := by
  refine ⟨rfl, ?_⟩
  show (0 : ℚ) ≠ 1
  norm_num

/-- C6 (amended): every record is drawn with the fixed fill colour
`rgb(50, 100, 255)` independent of its shade (the grey value `shade * 200`
is computed into `colorVal` but never used by the emitted shape), with a
white stroke of width 1. -/
theorem C6_fixed_fill (cx cy panx pany : ℚ) (r : RRec) :
    (drawRecord cx cy panx pany r).fill = (50, 100, 255) ∧
    (drawRecord cx cy panx pany r).strokeColor = (255, 255, 255) ∧
    (drawRecord cx cy panx pany r).strokeWidth = 1 :=
  ⟨rfl, rfl, rfl⟩

/-- The factor `(1.0 - scroll * 0.001).max(0.05)` is at least `1/20`, so one
scroll step multiplies the distance by a positive factor. -/
lemma scrollStep_pos {d : ℚ} (hd : 0 < d) (s : ℚ) : 0 < scrollStep d s := by
  unfold scrollStep
  split_ifs
  · exact mul_pos hd (lt_of_lt_of_le (by norm_num) (le_max_right _ _))
  · exact hd

/-- Positivity of the distance is preserved by any scroll sequence. -/
lemma applyScrolls_pos : ∀ (l : List ℚ) (d : ℚ), 0 < d → 0 < applyScrolls d l
  | [], _, hd => hd
  | s :: l, d, hd => applyScrolls_pos l (scrollStep d s) (scrollStep_pos hd s)

/-- A scroll of `950` lands exactly on the factor clamp:
`1 - 950 * 0.001 = 0.05`, so the step multiplies the distance by `1/20`. -/
lemma scrollStep_num950 (d : ℚ) : scrollStep d 950 = d * (1/20) := by
  unfold scrollStep f32EPSILON
  rw [if_pos (by norm_num)]
  norm_num

/-- Repeating the scroll `950` `n` times scales the distance by `(1/20)^n`. -/
lemma applyScrolls_replicate (n : ℕ) : ∀ d : ℚ,
    applyScrolls d (List.replicate n 950) = d * (1/20) ^ n := by
  induction n with
  | zero => intro d; simp [applyScrolls]
  | succ n ih =>
    intro d
    rw [List.replicate_succ]
    show applyScrolls (scrollStep d 950) (List.replicate n 950) = _
    rw [ih, scrollStep_num950, pow_succ]
    ring

/-- C7 (counterexample): no fixed strictly positive bound survives every
scroll sequence — each scroll of `950` multiplies the distance by the clamped
factor `1/20`, so from the initial distance `3` the distance eventually drops
below any prescribed positive bound. -/
theorem C7_no_uniform_lower_bound :
    ¬ ∃ b : ℚ, 0 < b ∧ ∀ l : List ℚ, b ≤ applyScrolls 3 l := by
  rintro ⟨b, hb, h⟩
  obtain ⟨n, hn⟩ := exists_pow_lt_of_lt_one (show (0:ℚ) < b/3 by linarith)
    (show (1:ℚ)/20 < 1 by norm_num)
  have hle := h (List.replicate n 950)
  rw [applyScrolls_replicate n 3] at hle
  have : (3:ℚ) * (1/20) ^ n < b := by linarith
  linarith

/-- C7 (amended): the distance reached from the initial value `3` by any
sequence of scroll inputs is strictly positive (each step multiplies by a
factor clamped to at least `1/20`), although no uniform positive lower bound
exists. -/
theorem C7_distance_stays_positive (l : List ℚ) : 0 < applyScrolls 3 l :=
  applyScrolls_pos l 3 (by norm_num)

/-- C4 (counterexample): with a NaN vertex depth the average depth is NaN,
and Rust's `clamp` returns NaN for a NaN input, so the shade is NaN — not a
value in `[0, 1]`. -/
theorem C4_nan_shade_counterexample :
    favg .nan (.fin 0) (.fin 0) = .nan ∧
    fshade (favg .nan (.fin 0) (.fin 0)) = .nan ∧
    ∀ q : ℚ, fshade (favg .nan (.fin 0) (.fin 0)) ≠ .fin q := by
  have h1 : favg FVal.nan (.fin 0) (.fin 0) = FVal.nan := rfl
  have h2 : fshade (favg FVal.nan (.fin 0) (.fin 0)) = FVal.nan := rfl
  refine ⟨h1, h2, ?_⟩
  intro q hq
  rw [h2] at hq
  exact FVal.noConfusion hq

/-- C4 (amended): every emitted record carries `avg_z = (z0 + z1 + z2) / 3`
of the camera-space depths and `shade = clamp(1 - avg_z/10, 0, 1)`, and the
shade lies in `[0, 1]` — for every non-NaN average depth, infinities
included; a NaN average depth instead propagates to a NaN shade. -/
theorem C4_record_depth_shade (cam : Mat4) (t : V3 × V3 × V3) (r : RRec) (z0 z1 z2 : FVal) :
    (renderTri cam t = some r →
      r.avg_z = ((transform cam t.1).z + (transform cam t.2.1).z + (transform cam t.2.2).z) / 3 ∧
      r.shade = clampQ (1 - r.avg_z / 10) 0 1 ∧ 0 ≤ r.shade ∧ r.shade ≤ 1) ∧
    (favg z0 z1 z2 ≠ .nan →
      ∃ q : ℚ, fshade (favg z0 z1 z2) = .fin q ∧ 0 ≤ q ∧ q ≤ 1) := by
  constructor
  · intro h
    simp only [renderTri] at h
    rcases hp0 : project (transform cam t.1) with _ | a <;>
      rcases hp1 : project (transform cam t.2.1) with _ | b <;>
      rcases hp2 : project (transform cam t.2.2) with _ | c <;>
      rw [hp0, hp1, hp2] at h <;> cases h
    exact ⟨rfl, rfl, (clampQ_range _).1, (clampQ_range _).2⟩
  · intro h
    rcases hv : favg z0 z1 z2 with q | _ | _ | _
    · rw [fshade_fin]
      exact ⟨clampQ (1 - q/10) 0 1, rfl, (clampQ_range _).1, (clampQ_range _).2⟩
    · exact ⟨0, rfl, le_refl 0, by norm_num⟩
    · exact ⟨1, rfl, by norm_num, le_refl 1⟩
    · exact absurd hv h

/-- Witness for C4: the fully visible triangle at depth 2 yields the record
with `avg_z = 2` and `shade = 4/5 ∈ [0, 1]`, and the `FVal` shade of three
finite depths 2 is a finite value in `[0, 1]`. -/
theorem C4_record_depth_shade_witness :
    (renderTri (build_camera 1 0 1 0 0) (⟨0, 0, 2⟩, ⟨1, 0, 2⟩, ⟨0, 1, 2⟩)
        = some ⟨2, 4/5, (0, 0), (1, 0), (0, -1)⟩) ∧
    favg (.fin 2) (.fin 2) (.fin 2) ≠ FVal.nan ∧
    (0 ≤ ((4:ℚ)/5) ∧ ((4:ℚ)/5) ≤ 1) ∧
    (∃ q : ℚ, fshade (favg (.fin 2) (.fin 2) (.fin 2)) = .fin q ∧ 0 ≤ q ∧ q ≤ 1) := by
  have hr : renderTri (build_camera 1 0 1 0 0) (⟨0, 0, 2⟩, ⟨1, 0, 2⟩, ⟨0, 1, 2⟩)
      = some ⟨2, 4/5, (0, 0), (1, 0), (0, -1)⟩ := by
    norm_num [renderTri, transform_build_camera, rotYpt, rotXpt, translateZpt, project, clampQ]
  have hn : favg (.fin 2) (.fin 2) (.fin 2) ≠ FVal.nan := by
    simp [favg, fadd, fdivC]
  have happ := C4_record_depth_shade (build_camera 1 0 1 0 0)
    (⟨0, 0, 2⟩, ⟨1, 0, 2⟩, ⟨0, 1, 2⟩) ⟨2, 4/5, (0, 0), (1, 0), (0, -1)⟩
    (.fin 2) (.fin 2) (.fin 2)
  exact ⟨hr, hn, ⟨(happ.1 hr).2.2.1, (happ.1 hr).2.2.2⟩, happ.2 hn⟩

/-- C5 (counterexample): sorting the depths `[3, NaN, 5]` leaves the list
unchanged (each adjacent pair compares "equal" through the NaN), so the
output contains the record of depth 3 followed — later, not adjacently — by
the record of comparable, strictly greater depth 5: the claimed global
"followed only by smaller or equal, or non-comparable" ordering fails once a
NaN depth is present. -/
theorem C5_nan_order_counterexample :
    sortRenderTris [rfin 3, rnan, rfin 5] = [rfin 3, rnan, rfin 5] ∧
    fpcmp (rfin 5).avg_z (rfin 3).avg_z = some .gt := by
  constructor
  · simp only [sortRenderTris, List.insertionSort, List.orderedInsert]
    norm_num [depthLe, depthCmp, fpcmp, rfin, rnan]
    decide
  · norm_num [rfin, fpcmp]

/-- C5 (amended): the depth sort returns a permutation of its input in which
every record's immediate successor has smaller-or-equal or non-comparable
depth; records with NaN depth compare "equal" to everything instead of
raising an error; the sort is total; and on inputs free of NaN depths the
descending order holds globally (pairwise), not just adjacently. -/
theorem C5_sort_properties (l : List RRecF) :
    (sortRenderTris l).Perm l ∧
    List.Chain' (fun a b => depthLe a b = true) (sortRenderTris l) ∧
    (∀ a b : RRecF, a.avg_z = .nan ∨ b.avg_z = .nan → depthCmp a b = .eq) ∧
    ((∀ r ∈ l, r.avg_z ≠ .nan) →
      List.Pairwise (fun a b => depthLe a b = true) (sortRenderTris l)) := by
  have total : ∀ a b : RRecF, depthLe a b = true ∨ depthLe b a = true := depthLe_total
  refine ⟨List.perm_insertionSort _ l, ?_, ?_, ?_⟩
  · exact chain'_insertionSort _ total l
  · intro a b h
    unfold depthCmp
    rcases h with h | h
    · rw [h, fpcmp_nan_right]
      rfl
    · rw [h, fpcmp_nan_left]
      rfl
  · intro h
    have hmem : ∀ x ∈ sortRenderTris l, x.avg_z ≠ .nan := by
      intro x hx
      exact h x ((List.perm_insertionSort _ l).mem_iff.mp hx)
    exact @pairwise_of_chain' RRecF (fun a b => depthLe a b = true)
      (fun x => x.avg_z ≠ FVal.nan) (fun a b c ha hb hc => depthLe_trans ha hb hc)
      (sortRenderTris l) hmem (chain'_insertionSort _ total l)

/-- Witness for C5: a NaN-depth record compares "equal" to a finite-depth
record, and the NaN-free list `[3, 5]` sorts to a globally pairwise
descending list. -/
theorem C5_sort_properties_witness :
    depthCmp rnan (rfin 0) = .eq ∧
    List.Pairwise (fun a b => depthLe a b = true) (sortRenderTris [rfin 3, rfin 5]) :=
  ⟨(C5_sort_properties []).2.2.1 rnan (rfin 0) (Or.inl rfl),
   (C5_sort_properties [rfin 3, rfin 5]).2.2.2 (by simp [rfin])⟩

end CsgView
